import Mathlib

/-!
Verification of the storyboard animation engine of the story-teller repository.

The definitions below are shallow embeddings of the Python functions in
src/generate_script.py and src/main.py.  Python integers are modelled as
Int/Nat (they are unbounded), floating point arithmetic is idealised as
exact real/rational arithmetic, and fallible code returns Except values
mirroring the Python exceptions that can escape.
-/

namespace StoryTeller

/-! ### Script decoder: parse_output in src/generate_script.py -/

/-- Python exceptions that can escape parse_output: list indexing raises
IndexError and int() on a non-integer string raises ValueError.  The
repository defines no error classes of its own; in particular no ParseError
and no GraphReferenceError class exists anywhere in the sources. -/
inductive PyErr where
  | indexError
  | valueError
deriving DecidableEq, Repr

/-- Split a character list at every occurrence of the separator, mirroring
Python str.split with a one-character separator (every separator used by
parse_output is a single character).  Like Python, splitting the empty
string yields one empty field. -/
def splitOnChar (sep : Char) : List Char → List (List Char)
  | [] => [[]]
  | c :: cs =>
    let r := splitOnChar sep cs
    if c = sep then [] :: r
    else
      match r with
      | [] => [[c]]
      | h :: t => (c :: h) :: t

/-- Python s.split(sep) for a one-character separator, on Lean strings. -/
def pySplit (s : String) (sep : Char) : List String :=
  (splitOnChar sep s.toList).map String.mk

/-- Python list indexing l[i] for a non-negative index: returns the element
or raises IndexError. -/
def pyGet {α : Type} (l : List α) (i : ℕ) : Except PyErr α :=
  match l.get? i with
  | some a => .ok a
  | none => .error .indexError

/-- Leading and trailing whitespace removal, as Python int() performs on its
argument before conversion. -/
def pyTrim (l : List Char) : List Char :=
  ((l.dropWhile Char.isWhitespace).reverse.dropWhile Char.isWhitespace).reverse

/-- Value of a non-empty all-digit character list, otherwise none. -/
def digitsVal (l : List Char) : Option ℕ :=
  if l ≠ [] ∧ l.all Char.isDigit then
    some (l.foldl (fun acc c => acc * 10 + (c.toNat - '0'.toNat)) 0)
  else none

/-- Python int(s): optional surrounding whitespace, an optional sign, then
decimal digits; anything else raises ValueError (modelled as none).  The
digit-group underscore feature of Python is not used by any input of this
system and is not modelled. -/
def pyInt (s : String) : Option ℤ :=
  match pyTrim s.toList with
  | '+' :: rest => (digitsVal rest).map (fun n => (n : ℤ))
  | '-' :: rest => (digitsVal rest).map (fun n => -(n : ℤ))
  | l => (digitsVal l).map (fun n => (n : ℤ))

/-- Python int(s) as a fallible computation: ValueError on failure. -/
def pyIntE (s : String) : Except PyErr ℤ :=
  match pyInt s with
  | some n => .ok n
  | none => .error .valueError

/-- Decoded frame as built by parse_output: the node entries are the raw
colon-split string lists (parse_output performs no arity validation on
them), and connection indices are arbitrary Python integers (no sign or
range check is performed). -/
structure PFrame where
  text : String
  nodes : List (List String)
  connections : List (List ℤ × ℤ)
deriving DecidableEq, Repr

/-- Embedding of the connection-entry parsing inside parse_output:
con_text.split(":"), then the sources from field 0 (comma separated ints,
evaluated first), then the target from field 1. -/
def parseConnEntry (con_text : String) : Except PyErr (List ℤ × ℤ) := do
  let conn_text_parsed := pySplit con_text ':'
  let src_str ← pyGet conn_text_parsed 0
  let start_nodes ← (pySplit src_str ',').mapM pyIntE
  let end_str ← pyGet conn_text_parsed 1
  let end_node ← pyIntE end_str
  return (start_nodes, end_node)

/-- Embedding of one iteration of the frame loop of parse_output.  The
fields at positions 1, 2 and 3 of the '?'-split are accessed in order
(extra fields are ignored; missing fields raise IndexError).  Exactly as in
the source, the frames.append call sits inside the branch guarded by
node_text_raw != "NO_NODE", so a NO_NODE frame contributes nothing. -/
def parseFrameInto (frames : List PFrame) (frame_text : String) :
    Except PyErr (List PFrame) := do
  let frame_segments := pySplit frame_text '?'
  let text ← pyGet frame_segments 1
  let node_text_raw ← pyGet frame_segments 2
  let connection_text_raw ← pyGet frame_segments 3
  if node_text_raw ≠ "NO_NODE" then
    let nodes := (pySplit node_text_raw ',').map (fun nt => pySplit nt ':')
    let connections ← (pySplit connection_text_raw ';').mapM parseConnEntry
    return frames ++ [⟨text, nodes, connections⟩]
  else
    return frames

/-- Embedding of parse_output of src/generate_script.py: split the raw
output on the frame separator and run the frame loop. -/
def parse_output (raw : String) : Except PyErr (List PFrame) :=
  (pySplit raw '$').foldlM parseFrameInto []

/-! ### Reveal sequencer: generate_animated_frame_sequence in src/main.py -/

/-- Node record (shape, color, text) as used by main.py. -/
abbrev GNode := String × String × String

/-- Connection as used by main.py: a tuple of source indices and a target
index.  In the decoded pipeline the sources are always a tuple, so the
isinstance branch of the source for a bare int corresponds here to a
singleton source list. -/
abbrev GConn := List ℕ × ℕ

/-- Python set.add on an int set, modelled as a duplicate-free list in
insertion order: append the element when missing.  Python int sets are
modelled as such lists throughout; the claims only use membership,
difference and sorted iteration, none of which depend on the
(implementation defined) iteration order of a CPython set. -/
def pyInsert (s : List ℕ) (n : ℕ) : List ℕ := if n ∈ s then s else s ++ [n]

/-- Indices involved in one connection, as the source builds new_nodes: an
empty set updated with the sources and then the target. -/
def connNodes (c : GConn) : List ℕ := pyInsert (c.1.foldl pyInsert []) c.2

/-- One element of the frame_sequence list built by
generate_animated_frame_sequence, in the source's tuple order:
(nodes, connections, duration, frame_text, visible_nodes). -/
structure Step where
  nodes : List GNode
  connections : List GConn
  duration : ℚ
  frame_text : Option String
  visible_nodes : List ℕ
deriving DecidableEq

/-- Inner loop of the sequencer: reveal the listed node indices one at a
time, emitting for each one a step whose connection list is the supplied
prefix, and return the final visible set. -/
def revealNodeSteps (nodes : List GNode) (conns : List GConn)
    (text : Option String) (d : ℚ) :
    List ℕ → List ℕ → List Step × List ℕ
  | visible, [] => ([], visible)
  | visible, n :: rest =>
    let visible' := pyInsert visible n
    let sv := revealNodeSteps nodes conns text d visible' rest
    (⟨nodes, conns, d, text, visible'⟩ :: sv.1, sv.2)

/-- Body of the loop of generate_animated_frame_sequence for one value of
the loop index i with its connection: compute the not yet visible endpoints
of connection i, sorted ascending, emit one step per such node against the
prefix of connections strictly before i, then one step against the prefix
including i. -/
def animStepFn (nodes : List GNode) (allConns : List GConn)
    (text : Option String) (d : ℚ) (sv : List Step × List ℕ) (ic : ℕ × GConn) :
    List Step × List ℕ :=
  let i := ic.1
  let c := ic.2
  let nodes_to_reveal := ((connNodes c).filter (fun n => n ∉ sv.2)).insertionSort (· ≤ ·)
  let inner := revealNodeSteps nodes (allConns.take i) text d sv.2 nodes_to_reveal
  (sv.1 ++ inner.1 ++ [⟨nodes, allConns.take (i + 1), d, text, inner.2⟩], inner.2)

/-- Embedding of generate_animated_frame_sequence of src/main.py.  The
loop for i in range(len(connections)) is the fold of the loop body over the
enumerated connection list, starting from an empty step list and an empty
visible set. -/
def generate_animated_frame_sequence (nodes : List GNode) (connections : List GConn)
    (frame_text : Option String) (duration_per_step : ℚ) : List Step :=
  if connections = [] then
    if nodes = [] then
      [⟨nodes, [], duration_per_step, frame_text, []⟩]
    else
      (List.range nodes.length).map
        (fun i => ⟨nodes, [], duration_per_step, frame_text, List.range (i + 1)⟩)
  else
    (connections.enum.foldl
      (animStepFn nodes connections frame_text duration_per_step) ([], [])).1

/-- Specification-side reveal loop, written from the Reveal Sequencer
paragraph of the spec: walk the connections in declared order carrying the
list of already-revealed connections (done) and the running visible set;
for each connection compute the ascending list of newly needed nodes, emit
one step per new node with the connection list excluding the current
connection, then one step, visible unchanged, with the connection list
including it. -/
def specRevealGo (nodes : List GNode) (text : Option String) (d : ℚ) :
    List GConn → List GConn → List ℕ → List Step
  | _done, [], _visible => []
  | done, c :: rest, visible =>
    let newNodes := ((connNodes c).filter (fun n => n ∉ visible)).insertionSort (· ≤ ·)
    let sv := revealNodeSteps nodes done text d visible newNodes
    sv.1 ++ [⟨nodes, done ++ [c], d, text, sv.2⟩]
         ++ specRevealGo nodes text d (done ++ [c]) rest sv.2

/-- Specification-side sequencer for a frame with connections: the running
visible set starts empty and no connection has been revealed yet. -/
def specReveal (nodes : List GNode) (connections : List GConn)
    (text : Option String) (d : ℚ) : List Step :=
  specRevealGo nodes text d [] connections []

/-- Property that a step's connection list only references visible nodes:
every source index and the target index of every connection of the step is
a member of the step's visible set. -/
def stepRespectsVisibility (s : Step) : Prop :=
  ∀ c ∈ s.connections, (∀ x ∈ c.1, x ∈ s.visible_nodes) ∧ c.2 ∈ s.visible_nodes

/-! ### Layout engine: _get_predefined_position in src/main.py -/

/-- While loop of _get_predefined_position finding the layer of a node
index.  The stored parameter l is the current layer minus one so that
termination is manifest; the loop is entered with layer 1 (l = 0) and
nodes_before 1, and nodes_in_current_layer is always 6 * (l + 1). -/
def findLayerAux (index : ℕ) (l : ℕ) (before : ℕ) : ℕ × ℕ :=
  if before + 6 * (l + 1) ≤ index then
    findLayerAux index (l + 1) (before + 6 * (l + 1))
  else (l + 1, before)
termination_by index - before
decreasing_by omega

/-- Layer and nodes_before for a node index, as computed by the while loop
of _get_predefined_position (entered with layer = 1, nodes_before = 1). -/
def findLayer (index : ℕ) : ℕ × ℕ := findLayerAux index 0 1

/-- Embedding of _get_predefined_position of src/main.py, with floating
point idealised as real arithmetic. -/
noncomputable def getPredefinedPosition (index : ℕ) : ℝ × ℝ :=
  if index = 0 then (0.5, 0.5)
  else
    let fl := findLayer index
    let layer := fl.1
    let nodes_before := fl.2
    let position_in_layer := index - nodes_before
    let nodes_in_current_layer := 6 * layer
    let angle : ℝ := 2 * Real.pi * position_in_layer / nodes_in_current_layer
    let radius : ℝ := min (0.20 + ((layer : ℝ) - 1) * 0.15) 0.42
    let x : ℝ := max 0.05 (min 0.95 (0.5 + radius * Real.cos angle))
    let y : ℝ := max 0.05 (min 0.95 (0.5 + radius * Real.sin angle))
    (x, y)

/-- Start index of concentric layer L in the spec's description: one
center node plus 6k slots for each layer k below L. -/
def layerStart (L : ℕ) : ℕ := 1 + 3 * L * (L - 1)

/-- Fuel-driven search for the first layer whose slots accommodate the
index, written from the spec's description of the layout rule. -/
def specLayerAux (index : ℕ) : ℕ → ℕ → ℕ
  | 0, L => L
  | fuel + 1, L =>
    if index < layerStart (L + 1) then L else specLayerAux index fuel (L + 1)

/-- Layer of an index per the spec: the least L ≥ 1 whose 6L slots cover
the index (fuel index suffices, because layerStart grows beyond any index
within that many steps). -/
def specLayer (index : ℕ) : ℕ := specLayerAux index index 1

/-- Clamp to the bounds [0.05, 0.95] used by the layout engine. -/
noncomputable def clamp01 (v : ℝ) : ℝ := max 0.05 (min 0.95 v)

/-- Radius of layer L per the spec: baseRadius 0.20, radiusStep 0.15,
capped at radiusCap 0.42 (the constant set of the source). -/
noncomputable def layerRadius (L : ℕ) : ℝ := min (0.20 + ((L : ℝ) - 1) * 0.15) 0.42

/-- Position formula written from the spec's words: slot within the layer,
angle 2π·slot/(6L), radius by layer, both coordinates clamped. -/
noncomputable def specPosition (index : ℕ) : ℝ × ℝ :=
  let L := specLayer index
  let slot := index - layerStart L
  let angle : ℝ := 2 * Real.pi * slot / ((6 * L : ℕ) : ℝ)
  (clamp01 (0.5 + layerRadius L * Real.cos angle),
   clamp01 (0.5 + layerRadius L * Real.sin angle))

/-! ### Frame state machine: generate_frame / generate_frames in src/main.py -/

/-- Position map: node index to (x, y).  A Python dict with int keys in
insertion order, modelled as an association list that is only ever extended
with keys not already present. -/
abbrev PosMap := List (ℕ × (ℝ × ℝ))

/-- Lookup in the position map (Python: i in pos, pos[i]). -/
def posLookup (ps : PosMap) (i : ℕ) : Option (ℝ × ℝ) :=
  (ps.find? (fun e => e.1 == i)).map (fun e => e.2)

/-- Global mutable module state _last_frame_state of src/main.py.  The
graph field stores the node indices of the networkx graph of the last
rendered frame (the only part of the graph object observable by later
logic); positions and nodes mirror the dictionary entries. -/
structure LastFrameState where
  positions : Option PosMap
  nodes : Option (List GNode)
  graph : Option (List ℕ)
  next_position_index : ℕ

/-- State written by reset_frame_state (also the initial module state). -/
def resetFrameState : LastFrameState := ⟨none, none, none, 0⟩

/-- networkx G.add_node: records the index if not yet present. -/
def addNode (g : List ℕ) (n : ℕ) : List ℕ := if n ∈ g then g else g ++ [n]

/-- networkx G.add_edge: adds both endpoints (source first) and the edge. -/
def addEdge (g : List ℕ × List (ℕ × ℕ)) (s t : ℕ) : List ℕ × List (ℕ × ℕ) :=
  (addNode (addNode g.1 s) t, if (s, t) ∈ g.2 then g.2 else g.2 ++ [(s, t)])

/-- Node and edge set of the directed graph G built by generate_frame:
every visible current node index is added first, then every connection
contributes its edges, adding missing endpoints as networkx does. -/
def buildGraph (nodes : List GNode) (connections : List GConn) (visible : List ℕ) :
    List ℕ × List (ℕ × ℕ) :=
  let g0 := ((List.range nodes.length).filter (fun i => i ∈ visible), ([] : List (ℕ × ℕ)))
  connections.foldl (fun g c => c.1.foldl (fun g s => addEdge g s c.2) g) g0

/-- Position assignment pass of generate_frame: start from the previous
session positions when present, then bind a predefined position for every
current node index not yet bound. -/
noncomputable def assignPositions (nodes : List GNode) (st : LastFrameState) : PosMap :=
  let base := st.positions.getD []
  (List.range nodes.length).foldl
    (fun p i => if (posLookup p i).isSome then p else p ++ [(i, getPredefinedPosition i)])
    base

/-- Ghost-position pass of generate_frame: with preserve_last, previous
bindings missing from the map are re-added.  This is a no-op whenever the
base map already came from the previous state, and is kept for fidelity to
the source. -/
noncomputable def preserveGhostPositions (p : PosMap) (preserve_last : Bool)
    (st : LastFrameState) : PosMap :=
  if preserve_last then
    match st.positions with
    | some ps => ps.foldl (fun p e => if (posLookup p e.1).isSome then p else p ++ [e]) p
    | none => p
  else p

/-- Full position map used by one generate_frame call. -/
noncomputable def buildPositions (nodes : List GNode) (preserve_last : Bool)
    (st : LastFrameState) : PosMap :=
  preserveGhostPositions (assignPositions nodes st) preserve_last st

/-- Ghost nodes drawn by generate_frame: with preserve_last and a previous
node list, every index of the previous node range not among the currently
visible node indices, provided it lies within the previous list and has a
position, is drawn with the node record of the previous list.  Python
iterates a set difference whose iteration order is not part of the
language; ascending order is fixed here (the claims about ghosts are
order-independent). -/
def computeGhosts (preserve_last : Bool) (st : LastFrameState)
    (currentIdx : List ℕ) (pos : PosMap) : List (ℕ × GNode) :=
  if preserve_last then
    match st.nodes with
    | some prev =>
      ((List.range prev.length).filter (fun i => i ∉ currentIdx)).filterMap
        (fun i =>
          if i < prev.length ∧ (posLookup pos i).isSome then
            (prev.get? i).map (fun nd => (i, nd))
          else none)
    | none => []
  else []

/-- Observable result of one generate_frame call: whether the text-only
branch ran, the ghost nodes drawn (index with the node record used), the
current node indices drawn at full opacity, the edges drawn, the position
map used, and the clip duration. -/
structure RenderOutput where
  textOnly : Bool
  drawnGhosts : List (ℕ × GNode)
  drawnNodes : List ℕ
  drawnEdges : List (ℕ × ℕ)
  pos : PosMap
  duration : ℚ

/-- Embedding of generate_frame of src/main.py: the early text-only branch
leaves the module state untouched; otherwise the graph, position map and
ghost set are computed and the state is overwritten with them.  The purely
presentational work (node sizes, fonts, file output) has no observable
effect on the state machine and is not modelled. -/
noncomputable def pyGenerateFrame (nodes : List GNode) (connections : List GConn)
    (duration : ℚ) (preserve_last : Bool) (frame_text : Option String)
    (visible_nodes : Option (List ℕ)) (st : LastFrameState) :
    RenderOutput × LastFrameState :=
  if nodes = [] then
    (⟨true, [], [], [], [], duration⟩, st)
  else
    let visible := visible_nodes.getD (List.range nodes.length)
    let g := buildGraph nodes connections visible
    let current_node_indices := (List.range nodes.length).filter (fun i => i ∈ visible)
    let pos := buildPositions nodes preserve_last st
    let ghosts := computeGhosts preserve_last st current_node_indices pos
    let drawn := (List.range nodes.length).filter (fun i => i ∈ g.1)
    (⟨false, ghosts, drawn, g.2, pos, duration⟩,
     ⟨some pos, some nodes, some g.1, st.next_position_index⟩)

/-- Per-frame specification dict as assembled by generate_video_from_story:
ind, text, nodes, connections, duration, visible_nodes. -/
structure FrameSpec where
  ind : ℕ
  text : Option String
  nodes : List GNode
  connections : List GConn
  duration : ℚ
  visible_nodes : Option (List ℕ)

/-- Rendering loop of generate_frames over the frame dicts: frame i is
rendered with preserve_last set exactly when continuity is on and i > 0,
threading the module state. -/
noncomputable def goFrames (pc : Bool) :
    List FrameSpec → ℕ → LastFrameState → List RenderOutput × LastFrameState
  | [], _, st => ([], st)
  | f :: rest, i, st =>
    let pl := pc && decide (0 < i)
    let r := pyGenerateFrame f.nodes f.connections f.duration pl f.text f.visible_nodes st
    let rest' := goFrames pc rest (i + 1) r.2
    (r.1 :: rest'.1, rest'.2)

/-- Embedding of the rendering part of generate_frames of src/main.py: with
continuity enabled the module state is reset first. -/
noncomputable def generateFramesRun (frames : List FrameSpec) (pc : Bool)
    (st : LastFrameState) : List RenderOutput × LastFrameState :=
  goFrames pc frames 0 (if pc then resetFrameState else st)

/-- Embedding of the frame-expansion part of generate_video_from_story of
src/main.py: every story frame is expanded by the sequencer, tagged with
its story index, and formatted into a frame dict carrying the step's
visible set. -/
def storyFrameSpecs (story : List (Option String × List GNode × List GConn))
    (duration_per_step : ℚ) : List FrameSpec :=
  story.enum.flatMap (fun p =>
    (generate_animated_frame_sequence p.2.2.1 p.2.2.2 p.2.1 duration_per_step).map
      (fun s => ⟨p.1, s.frame_text, s.nodes, s.connections, s.duration, some s.visible_nodes⟩))

/-! ### Clip assembler: the audio-extension block of generate_frames -/

/-- MoviePy audio clip abstraction: a duration and opaque contents. -/
structure PyAudio (β : Type) where
  duration : ℚ
  data : β

/-- MoviePy video clip abstraction: a duration, frame contents addressed by
time, and optionally attached audio. -/
structure PyClip (α β : Type) where
  duration : ℚ
  frame : ℚ → α
  audio : Option (PyAudio β)

/-- ImageClip(img).with_duration(d): a constant frame, no audio. -/
def imageClipDur {α β : Type} (img : α) (d : ℚ) : PyClip α β := ⟨d, fun _ => img, none⟩

/-- concatenate_videoclips on two clips: durations add and the second clip
starts where the first ends. -/
def concatTwo {α β : Type} (a b : PyClip α β) : PyClip α β :=
  ⟨a.duration + b.duration,
   fun t => if t < a.duration then a.frame t else b.frame (t - a.duration), none⟩

/-- with_audio: attach the narration audio unchanged. -/
def withAudio {α β : Type} (c : PyClip α β) (a : PyAudio β) : PyClip α β :=
  ⟨c.duration, c.frame, some a⟩

/-- Embedding of the per-group assembly block of generate_frames of
src/main.py: when the narration audio outlasts the visual clip, the frame
sampled 0.01 s before the end of the visual clip is frozen for the deficit
and appended, then the audio is attached untrimmed. -/
def assembleGroupClip {α β : Type} (frame_clip : PyClip α β)
    (audio_clip : PyAudio β) : PyClip α β :=
  let video_duration := frame_clip.duration
  let audio_duration := audio_clip.duration
  let fc :=
    if audio_duration > video_duration then
      let last_frame := frame_clip.frame (video_duration - 1 / 100)
      concatTwo frame_clip (imageClipDur last_frame (audio_duration - video_duration))
    else frame_clip
  withAudio fc audio_clip

/-! ### Derived state observations and concrete fixtures -/

/-- Position bound for a node index in the module state, when any. -/
def statePos (st : LastFrameState) (i : ℕ) : Option (ℝ × ℝ) :=
  match st.positions with
  | some ps => posLookup ps i
  | none => none

/-- Story frame A of the ghosting scenario: three nodes, connections that
reveal all of them. -/
def nodesA : List GNode :=
  [("box", "black", "A0"), ("box", "black", "A1"), ("box", "black", "A2")]

/-- Connections of story frame A. -/
def connsA : List GConn := [([0], 1), ([1], 2)]

/-- Story frame B of the ghosting scenario: four nodes, of which the first
connection involves nodes 0 and 3. -/
def nodesB : List GNode :=
  [("box", "black", "B0"), ("box", "black", "B1"),
   ("box", "black", "B2"), ("box", "black", "B3")]

/-- Connections of story frame B. -/
def connsB : List GConn := [([0], 3)]

/-- The two-frame story A then B. -/
def storyAB : List (Option String × List GNode × List GConn) :=
  [(some "ta", nodesA, connsA), (some "tb", nodesB, connsB)]

/-- Render trace of the full session on the story A then B with continuity
enabled (frame A expands to five animation steps, frame B to three). -/
noncomputable def traceAB : List RenderOutput :=
  (generateFramesRun (storyFrameSpecs storyAB 1) true resetFrameState).1

/-- Module state as left behind by a rendered one-node frame: used to
observe what a caption-only step does to the state. -/
noncomputable def captionState : LastFrameState :=
  ⟨some [(0, getPredefinedPosition 0)], some [("box", "black", "X")], some [0], 0⟩

/-- Module state with a binding for node index 5, used to witness the
append-only behaviour of the layout state. -/
noncomputable def boundState : LastFrameState :=
  ⟨some [(5, getPredefinedPosition 0)], some [("box", "black", "X")], some [0], 0⟩

/-- One frame dict rendering a single fresh node, used as a witness step. -/
def oneNodeSpec : FrameSpec := ⟨0, some "t", [("box", "black", "Y")], [], 1, none⟩

/-- The fifth animation step of frame A (both connections revealed, all
three nodes visible). -/
def stepC2 : Step := ⟨nodesA, connsA, 1, some "ta", [0, 1, 2]⟩

/-! ### Theorems -/

/-- C3: the claim states that decoding "1?Intro?NO_NODE?NO_NODE" yields one
StoryFrame with empty nodes and connections and text "Intro", and that a
NO_NODE nodeSpec in general decodes to a frame with an empty node list.
The code instead drops such frames entirely: the frames.append call of
parse_output sits inside the branch taken only when the nodeSpec is not
NO_NODE, so the decode of this input yields an empty frame list.  The rest
of the pipeline (the text-only branches of generate_frame and
generate_animated_frame_sequence, and the prompt instructing the model to
emit NO_NODE caption frames) shows caption frames are intended to survive
decoding, so this is a slip in the code, not in the claim. -/
theorem decode_no_node_frame_dropped :
    parse_output "1?Intro?NO_NODE?NO_NODE" = Except.ok ([] : List PFrame) := by
  rfl

/-- C4 counterexample: the claim states that decoding fails with a
GraphReferenceError exactly when a connection references a node index at
least the node count of its frame.  On the input below the sole connection
references node 5 of a one-node frame, yet decoding succeeds (no error of
any kind is raised; no GraphReferenceError class even exists in the
sources); the second input shows a negative index token is likewise
accepted although the claim requires a ParseError for any token that is
not a non-negative integer. -/
theorem decode_unchecked_reference_counterexample :
    parse_output "1?A?box:black:X?0:5"
        = Except.ok [⟨"A", [["box", "black", "X"]], [([0], 5)]⟩] ∧
    parse_output "1?A?box:black:X?-1:0"
        = Except.ok [⟨"A", [["box", "black", "X"]], [([-1], 0)]⟩] := by
  exact ⟨rfl, rfl⟩

/-- C4 amended: the decoder performs no node-reference checking at all and
raises only untyped Python errors: an IndexError when a frame splits into
fewer than four '?'-fields or a connection entry lacks a ':'-separated
target, a ValueError when an index token is not an optionally signed
integer; node entries are not checked for their sub-count, and negative or
out-of-range connection indices decode without error. -/
theorem decoder_error_behavior :
    parse_output "1?A" = Except.error PyErr.indexError ∧
    parse_output "frame1" = Except.error PyErr.indexError ∧
    parse_output "1?A?box:black:X?x:1" = Except.error PyErr.valueError ∧
    parse_output "1?A?box:black:X?0" = Except.error PyErr.indexError ∧
    parse_output "1?A?box?0:0" = Except.ok [⟨"A", [["box"]], [([0], 0)]⟩] ∧
    parse_output "1?A?box:black:X?0:5"
        = Except.ok [⟨"A", [["box", "black", "X"]], [([0], 5)]⟩] := by
  exact ⟨rfl, rfl, rfl, rfl, rfl, rfl⟩

/-- C9: for every clip group whose narration audio outlasts the visual
clip, the assembled group clip lasts exactly as long as the audio, the
appended extension constantly shows the final frame of the visual clip
(sampled 0.01 s before its end, the way the source reads the last frame),
the original footage is unchanged before the extension, and the narration
audio is attached untrimmed. -/
theorem audio_extension_exact {α β : Type} (fc : PyClip α β) (ac : PyAudio β)
    (h : ac.duration > fc.duration) :
    (assembleGroupClip fc ac).duration = ac.duration ∧
    (∀ t, fc.duration ≤ t →
      (assembleGroupClip fc ac).frame t = fc.frame (fc.duration - 1 / 100)) ∧
    (∀ t, t < fc.duration → (assembleGroupClip fc ac).frame t = fc.frame t) ∧
    (assembleGroupClip fc ac).audio = some ac := by
  have hcl : assembleGroupClip fc ac =
      ⟨fc.duration + (ac.duration - fc.duration),
       fun t => if t < fc.duration then fc.frame t
                else fc.frame (fc.duration - 1 / 100),
       some ac⟩ := by
    simp only [assembleGroupClip, withAudio, concatTwo, imageClipDur]
    rw [if_pos h]
  rw [hcl]
  refine ⟨?_, fun t ht => ?_, fun t ht => ?_, rfl⟩
  · show fc.duration + (ac.duration - fc.duration) = ac.duration
    ring
  · show (if t < fc.duration then fc.frame t
          else fc.frame (fc.duration - 1 / 100)) = fc.frame (fc.duration - 1 / 100)
    exact if_neg (not_lt.2 ht)
  · show (if t < fc.duration then fc.frame t
          else fc.frame (fc.duration - 1 / 100)) = fc.frame t
    exact if_pos ht

/-- Witness for C9 at the 5 s visual / 7 s narration instance of the
claim: the group clip lasts 7 s, the frame at 6 s is the frozen final
frame of the 5 s footage, and the audio is attached whole. -/
theorem audio_extension_exact_witness :
    (assembleGroupClip (⟨5, id, none⟩ : PyClip ℚ Unit) ⟨7, ()⟩).duration = 7 ∧
    (assembleGroupClip (⟨5, id, none⟩ : PyClip ℚ Unit) ⟨7, ()⟩).frame 6 = 499 / 100 ∧
    (assembleGroupClip (⟨5, id, none⟩ : PyClip ℚ Unit) ⟨7, ()⟩).audio = some ⟨7, ()⟩ := by
  have h := audio_extension_exact (⟨5, id, none⟩ : PyClip ℚ Unit) ⟨7, ()⟩ (by norm_num)
  refine ⟨h.1, ?_, h.2.2.2⟩
  have h2 := h.2.1 6 (by norm_num)
  rw [h2]
  norm_num

/-- Helper: taking the length of the first part of an append yields it. -/
lemma take_prefix_append (done rest : List GConn) :
    (done ++ rest).take done.length = done := List.take_left done rest

/-- Helper: taking one element further includes the head of the rest. -/
lemma take_prefix_append_succ (done : List GConn) (c : GConn) (rest : List GConn) :
    (done ++ c :: rest).take (done.length + 1) = done ++ [c] := by
  induction done with
  | nil => rfl
  | cons a t ih => simp [List.cons_append, ih]

/-- Helper: membership after a Python set.add. -/
lemma mem_pyInsert {s : List ℕ} {n x : ℕ} : x ∈ pyInsert s n ↔ x ∈ s ∨ x = n := by
  unfold pyInsert
  by_cases h : n ∈ s
  · simp only [if_pos h]
    constructor
    · exact Or.inl
    · rintro (hx | rfl)
      · exact hx
      · exact h
  · simp [if_neg h]

/-- Helper: a set only grows under set.add. -/
lemma subset_pyInsert (s : List ℕ) (n : ℕ) : s ⊆ pyInsert s n :=
  fun _ hx => mem_pyInsert.2 (Or.inl hx)

/-- Helper: membership after folding set.add over a list. -/
lemma mem_foldl_pyInsert (l : List ℕ) :
    ∀ (s : List ℕ) (x : ℕ), x ∈ l.foldl pyInsert s ↔ x ∈ s ∨ x ∈ l := by
  induction l with
  | nil => intro s x; simp
  | cons n t ih =>
    intro s x
    simp only [List.foldl_cons, ih, mem_pyInsert, List.mem_cons]
    tauto

/-- Helper: a set only grows under a fold of set.add. -/
lemma subset_foldl_pyInsert (l s : List ℕ) : s ⊆ l.foldl pyInsert s :=
  fun x hx => (mem_foldl_pyInsert l s x).2 (Or.inl hx)

/-- Helper: every source of a connection is among its involved nodes. -/
lemma mem_connNodes_sources {c : GConn} {x : ℕ} (hx : x ∈ c.1) : x ∈ connNodes c :=
  mem_pyInsert.2 (Or.inl ((mem_foldl_pyInsert c.1 [] x).2 (Or.inr hx)))

/-- Helper: the target of a connection is among its involved nodes. -/
lemma mem_connNodes_target (c : GConn) : c.2 ∈ connNodes c :=
  mem_pyInsert.2 (Or.inr rfl)

/-- Helper: the final visible set of the inner reveal loop is the fold of
set.add over the revealed indices. -/
lemma revealNodeSteps_snd (nodes : List GNode) (conns : List GConn)
    (text : Option String) (d : ℚ) :
    ∀ (l visible : List ℕ),
      (revealNodeSteps nodes conns text d visible l).2 = l.foldl pyInsert visible := by
  intro l
  induction l with
  | nil => intro visible; rfl
  | cons n t ih => intro visible; simp [revealNodeSteps, ih]

/-- Helper: every step of the inner reveal loop carries the supplied
connection prefix and a visible set containing the entry set. -/
lemma revealNodeSteps_mem (nodes : List GNode) (conns : List GConn)
    (text : Option String) (d : ℚ) :
    ∀ (l visible : List ℕ) (s : Step),
      s ∈ (revealNodeSteps nodes conns text d visible l).1 →
      s.connections = conns ∧ visible ⊆ s.visible_nodes := by
  intro l
  induction l with
  | nil => intro visible s hs; simp [revealNodeSteps] at hs
  | cons n t ih =>
    intro visible s hs
    simp only [revealNodeSteps, List.mem_cons] at hs
    rcases hs with rfl | hs
    · exact ⟨rfl, subset_pyInsert _ _⟩
    · obtain ⟨h1, h2⟩ := ih (pyInsert visible n) s hs
      exact ⟨h1, (subset_pyInsert _ _).trans h2⟩

/-- Helper: all endpoints of a connection lie in the visible set obtained
after revealing its missing endpoints. -/
lemma connNodes_subset_after (c : GConn) (visible : List ℕ) :
    ∀ x ∈ connNodes c,
      x ∈ (((connNodes c).filter (fun n => n ∉ visible)).insertionSort (· ≤ ·)).foldl
            pyInsert visible := by
  intro x hx
  rw [mem_foldl_pyInsert]
  by_cases hv : x ∈ visible
  · exact Or.inl hv
  · refine Or.inr ?_
    rw [(List.perm_insertionSort (· ≤ ·) _).mem_iff]
    simp [List.mem_filter, hx, hv]

/-- Helper: every step emitted by the specification reveal loop references
only nodes visible at that step, provided every already-revealed
connection has all endpoints in the entry visible set. -/
lemma specRevealGo_visible (nodes : List GNode) (text : Option String) (d : ℚ) :
    ∀ (rest done : List GConn) (visible : List ℕ),
      (∀ c ∈ done, (∀ x ∈ c.1, x ∈ visible) ∧ c.2 ∈ visible) →
      ∀ s ∈ specRevealGo nodes text d done rest visible, stepRespectsVisibility s := by
  intro rest
  induction rest with
  | nil => intro done visible _ s hs; simp [specRevealGo] at hs
  | cons c rest ih =>
    intro done visible hinv s hs
    simp only [specRevealGo, List.append_assoc, List.singleton_append,
      List.mem_append, List.mem_cons] at hs
    set sv := revealNodeSteps nodes done text d visible
        (((connNodes c).filter (fun n => n ∉ visible)).insertionSort (· ≤ ·)) with hsv
    have hsub : visible ⊆ sv.2 := by
      rw [hsv, revealNodeSteps_snd]
      exact subset_foldl_pyInsert _ _
    have hc2 : ∀ x ∈ connNodes c, x ∈ sv.2 := by
      rw [hsv, revealNodeSteps_snd]
      exact connNodes_subset_after c visible
    have hinvc : ∀ c2 ∈ done ++ [c], (∀ x ∈ c2.1, x ∈ sv.2) ∧ c2.2 ∈ sv.2 := by
      intro c2 hc'
      rcases List.mem_append.1 hc' with hd | hcl
      · obtain ⟨h1, h2⟩ := hinv c2 hd
        exact ⟨fun x hx => hsub (h1 x hx), hsub h2⟩
      · have hcc : c2 = c := by simpa using hcl
        subst hcc
        exact ⟨fun x hx => hc2 x (mem_connNodes_sources hx),
               hc2 _ (mem_connNodes_target c2)⟩
    rcases hs with hs | rfl | hs
    · obtain ⟨hconn, hvis⟩ := revealNodeSteps_mem nodes done text d _ visible s hs
      intro c2 hc'
      rw [hconn] at hc'
      obtain ⟨h1, h2⟩ := hinv c2 hc'
      exact ⟨fun x hx => hvis (h1 x hx), hvis h2⟩
    · intro c2 hc'
      exact hinvc c2 hc'
    · exact ih (done ++ [c]) sv.2 hinvc s hs

/-- Helper: the indexed loop body of the sequencer, applied at position
done.length of the connection list, produces the structural step. -/
lemma animStepFn_at (nodes : List GNode) (text : Option String) (d : ℚ)
    (done : List GConn) (c : GConn) (rest : List GConn)
    (acc : List Step) (visible : List ℕ) :
    animStepFn nodes (done ++ c :: rest) text d (acc, visible) (done.length, c)
      = (acc ++ (revealNodeSteps nodes done text d visible
            (((connNodes c).filter (fun n => n ∉ visible)).insertionSort (· ≤ ·))).1
          ++ [⟨nodes, done ++ [c], d, text,
               (revealNodeSteps nodes done text d visible
                 (((connNodes c).filter (fun n => n ∉ visible)).insertionSort (· ≤ ·))).2⟩],
         (revealNodeSteps nodes done text d visible
           (((connNodes c).filter (fun n => n ∉ visible)).insertionSort (· ≤ ·))).2) := by
  simp only [animStepFn]
  rw [take_prefix_append_succ]
  rw [show (done ++ c :: rest).take done.length = done from take_prefix_append done (c :: rest)]

/-- Helper: the fold of the loop body over the enumerated remaining
connections computes the structural specification recursion. -/
lemma animFold_eq_specGo (nodes : List GNode) (text : Option String) (d : ℚ) :
    ∀ (rest done : List GConn) (acc : List Step) (visible : List ℕ),
    (List.foldl (animStepFn nodes (done ++ rest) text d) (acc, visible)
        (rest.enumFrom done.length)).1
      = acc ++ specRevealGo nodes text d done rest visible := by
  intro rest
  induction rest with
  | nil => intro done acc visible; simp [specRevealGo]
  | cons c rest ih =>
    intro done acc visible
    simp only [List.enumFrom, List.foldl_cons]
    rw [animStepFn_at]
    set sv := revealNodeSteps nodes done text d visible
        (((connNodes c).filter (fun n => n ∉ visible)).insertionSort (· ≤ ·)) with hsv
    have happ : done ++ c :: rest = (done ++ [c]) ++ rest := by simp
    have hlen : done.length + 1 = (done ++ [c]).length := by simp
    rw [happ, hlen]
    rw [ih (done ++ [c]) (acc ++ sv.1 ++ [(⟨nodes, done ++ [c], d, text, sv.2⟩ : Step)]) sv.2]
    simp only [specRevealGo, List.append_assoc, List.singleton_append]

/-- Helper: on a frame with connections, the sequencer output equals the
specification-side reveal. -/
lemma gen_eq_specReveal (nodes : List GNode) (conns : List GConn)
    (text : Option String) (d : ℚ) (h : conns ≠ []) :
    generate_animated_frame_sequence nodes conns text d = specReveal nodes conns text d := by
  unfold generate_animated_frame_sequence specReveal
  rw [if_neg h]
  have := animFold_eq_specGo nodes text d conns [] [] []
  simpa [List.enum] using this

/-- C1: for every StoryFrame with a non-empty connection list, the
sequencer processes connections in declared order with a running visible
set starting empty; for each connection it computes the newly needed nodes
(sources union target minus visible) sorted ascending, emits one step per
such node, adding it to visible, whose connection list is the prefix
strictly before the current connection, then one step, visible unchanged,
whose connection list is the prefix including it.  Formally the code
output equals the specification-side recursion specReveal written from
those words. -/
theorem reveal_sequencer_matches_spec (nodes : List GNode) (conns : List GConn)
    (text : Option String) (d : ℚ) (h : conns ≠ []) :
    generate_animated_frame_sequence nodes conns text d
      = specReveal nodes conns text d :=
  gen_eq_specReveal nodes conns text d h

/-- Witness for C1: the equality at the concrete frame A. -/
theorem reveal_sequencer_matches_spec_witness :
    generate_animated_frame_sequence nodesA connsA (some "ta") 1
      = specReveal nodesA connsA (some "ta") 1 :=
  reveal_sequencer_matches_spec nodesA connsA (some "ta") 1 (by decide)

/-- C2: for every StoryFrame with a non-empty connection list, every step
emitted by the sequencer satisfies that every node index appearing as a
source or target in the step's connection list is a member of the step's
visible set (nodes always precede the edges that reference them). -/
theorem reveal_steps_reference_visible_nodes (nodes : List GNode) (conns : List GConn)
    (text : Option String) (d : ℚ) (h : conns ≠ []) (s : Step)
    (hs : s ∈ generate_animated_frame_sequence nodes conns text d) :
    stepRespectsVisibility s := by
  rw [gen_eq_specReveal nodes conns text d h] at hs
  exact specRevealGo_visible nodes text d conns [] [] (by simp) s hs

/-- Witness for C2: the fifth step of the concrete frame A references only
visible nodes. -/
theorem reveal_steps_reference_visible_nodes_witness :
    stepRespectsVisibility stepC2 :=
  reveal_steps_reference_visible_nodes nodesA connsA (some "ta") 1 (by decide)
    stepC2 (by decide)

/-- Helper: any l is below the layer start of layer l + 1. -/
lemma lt_layerStartAux (l index : ℕ) (h : 1 + 3 * (l + 1) * l ≤ index) : l < index := by
  have hl : l < 1 + 3 * (l + 1) * l := by nlinarith
  exact lt_of_lt_of_le hl h

/-- Helper: the while loop of the layout function, entered at stored layer
l with the matching nodes_before, stops at the unique layer whose slot
range contains the index. -/
lemma findLayerAux_spec_aux (index : ℕ) :
    ∀ (k l : ℕ), index - l ≤ k → 1 + 3 * (l + 1) * l ≤ index →
    ∃ L, findLayerAux index l (1 + 3 * (l + 1) * l) = (L, layerStart L) ∧
      l + 1 ≤ L ∧ layerStart L ≤ index ∧ index < layerStart (L + 1) := by
  intro k
  induction k with
  | zero =>
    intro l hk h
    exfalso
    have h1 : l < index := lt_layerStartAux l index h
    omega
  | succ k ih =>
    intro l hk h
    rw [findLayerAux]
    by_cases hcond : 1 + 3 * (l + 1) * l + 6 * (l + 1) ≤ index
    · rw [if_pos hcond]
      have harg : 1 + 3 * (l + 1) * l + 6 * (l + 1) = 1 + 3 * (l + 1 + 1) * (l + 1) := by
        ring
      rw [harg]
      have hk2 : index - (l + 1) ≤ k := by
        have h1 : l < index := lt_layerStartAux l index h
        omega
      obtain ⟨L, hL, h1, h2, h3⟩ := ih (l + 1) hk2 (harg ▸ hcond)
      exact ⟨L, hL, by omega, h2, h3⟩
    · rw [if_neg hcond]
      refine ⟨l + 1, ?_, le_refl _, ?_, ?_⟩
      · simp [layerStart]
      · simpa [layerStart] using h
      · have he : 1 + 3 * (l + 1) * l + 6 * (l + 1) = 1 + 3 * (l + 1 + 1) * (l + 1) := by
          ring
        have hlt : index < 1 + 3 * (l + 1) * l + 6 * (l + 1) := by omega
        rw [he] at hlt
        simpa [layerStart] using hlt

/-- Helper: the layer start is monotone. -/
lemma layerStart_mono : Monotone layerStart := by
  intro a b hab
  unfold layerStart
  have h1 : a - 1 ≤ b - 1 := Nat.sub_le_sub_right hab 1
  have h2 : 3 * a ≤ 3 * b := by omega
  exact Nat.add_le_add_left (Nat.mul_le_mul h2 h1) 1

/-- Helper: at most one layer's slot range contains a given index. -/
lemma layer_unique (i a b : ℕ) (ha2 : layerStart a ≤ i) (ha3 : i < layerStart (a + 1))
    (hb2 : layerStart b ≤ i) (hb3 : i < layerStart (b + 1)) : a = b := by
  by_contra hne
  rcases Nat.lt_or_ge a b with hlt | hge
  · have h1 : layerStart (a + 1) ≤ layerStart b := layerStart_mono hlt
    omega
  · have hlt : b < a := lt_of_le_of_ne hge (fun he => hne he.symm)
    have h1 : layerStart (b + 1) ≤ layerStart a := layerStart_mono hlt
    omega

/-- Helper: the fuel-driven spec search, given enough fuel, lands in the
layer whose slot range contains the index. -/
lemma specLayerAux_spec (index : ℕ) :
    ∀ (fuel L : ℕ), 1 ≤ L → layerStart L ≤ index → index < layerStart (L + fuel) →
    1 ≤ specLayerAux index fuel L ∧ layerStart (specLayerAux index fuel L) ≤ index ∧
      index < layerStart (specLayerAux index fuel L + 1) := by
  intro fuel
  induction fuel with
  | zero =>
    intro L h1 h2 h3
    exfalso
    simp only [Nat.add_zero] at h3
    omega
  | succ f ih =>
    intro L h1 h2 h3
    simp only [specLayerAux]
    by_cases h4 : index < layerStart (L + 1)
    · rw [if_pos h4]
      exact ⟨h1, h2, h4⟩
    · rw [if_neg h4]
      refine ih (L + 1) (by omega) (le_of_not_lt h4) ?_
      have he : L + 1 + f = L + (f + 1) := by omega
      rwa [he]

/-- Helper: the spec layer of a positive index satisfies the slot-range
characterisation. -/
lemma specLayer_spec (index : ℕ) (h : 1 ≤ index) :
    1 ≤ specLayer index ∧ layerStart (specLayer index) ≤ index ∧
      index < layerStart (specLayer index + 1) := by
  apply specLayerAux_spec index index 1 (le_refl 1)
  · simpa [layerStart] using h
  · have hx : index ≤ 3 * (1 + index) * index := by nlinarith
    simp only [layerStart, Nat.add_sub_cancel_left]
    omega

/-- Helper: on a positive index the while loop of the source lands on the
spec layer with its layer start. -/
lemma findLayer_eq (index : ℕ) (h : 1 ≤ index) :
    findLayer index = (specLayer index, layerStart (specLayer index)) := by
  have h1 : (1 : ℕ) + 3 * (0 + 1) * 0 ≤ index := by simpa using h
  obtain ⟨L, hL, _, h2, h3⟩ := findLayerAux_spec_aux index (index - 0) 0 (le_refl _) h1
  have hspec := specLayer_spec index h
  have hLe : L = specLayer index :=
    layer_unique index L (specLayer index) h2 h3 hspec.2.1 hspec.2.2
  unfold findLayer
  have he : (1 : ℕ) + 3 * (0 + 1) * 0 = 1 := by ring
  rw [← he, hL, hLe]

/-- C5: the layout position function maps index 0 to the centre (0.5,
0.5); every index at least 1 is placed in the concentric layer L at least
1 whose 6L slots first accommodate the index (layerStart L ≤ index <
layerStart (L+1)), at angle 2π·slot/(6L) and radius min(0.20 + (L−1)·0.15,
0.42), both coordinates clamped to [0.05, 0.95] — formally the code value
equals specPosition, written from those words; and two calls with the same
index return the same point. -/
theorem layout_position_matches_spec :
    getPredefinedPosition 0 = (0.5, 0.5) ∧
    (∀ index : ℕ, 1 ≤ index →
      (1 ≤ specLayer index ∧ layerStart (specLayer index) ≤ index ∧
        index < layerStart (specLayer index + 1)) ∧
      getPredefinedPosition index = specPosition index) ∧
    (∀ i j : ℕ, i = j → getPredefinedPosition i = getPredefinedPosition j) := by
  refine ⟨by simp [getPredefinedPosition], ?_, fun i j hij => by rw [hij]⟩
  intro index h
  refine ⟨specLayer_spec index h, ?_⟩
  have hne : index ≠ 0 := by omega
  have hfl := findLayer_eq index h
  simp only [getPredefinedPosition, specPosition, clamp01, layerRadius, if_neg hne, hfl]

/-- Witness for C5 at index 1: the characterisation and the position
formula hold there. -/
theorem layout_position_matches_spec_witness :
    (1 ≤ specLayer 1 ∧ layerStart (specLayer 1) ≤ 1 ∧ 1 < layerStart (specLayer 1 + 1)) ∧
    getPredefinedPosition 1 = specPosition 1 :=
  layout_position_matches_spec.2.1 1 (le_refl 1)

/-- Helper: position lookup on a cons. -/
lemma posLookup_cons (e : ℕ × (ℝ × ℝ)) (t : PosMap) (i : ℕ) :
    posLookup (e :: t) i = if e.1 == i then some e.2 else posLookup t i := by
  by_cases h : (e.1 == i) <;> simp [posLookup, List.find?_cons, h]

/-- Helper: a successful position lookup survives appending entries. -/
lemma posLookup_append (ps qs : PosMap) (i : ℕ) (p : ℝ × ℝ)
    (h : posLookup ps i = some p) : posLookup (ps ++ qs) i = some p := by
  induction ps with
  | nil => simp [posLookup] at h
  | cons e t ih =>
    rw [List.cons_append, posLookup_cons]
    rw [posLookup_cons] at h
    by_cases he : (e.1 == i) = true
    · rwa [if_pos he] at h ⊢
    · rw [if_neg he] at h ⊢
      exact ih h

/-- Helper: the assignment pass of generate_frame never disturbs an
existing binding. -/
lemma posLookup_foldl_assign (l : List ℕ) :
    ∀ (ps : PosMap) (i : ℕ) (p : ℝ × ℝ), posLookup ps i = some p →
    posLookup
      (l.foldl (fun q j => if (posLookup q j).isSome then q
                           else q ++ [(j, getPredefinedPosition j)]) ps) i = some p := by
  induction l with
  | nil => intro ps i p h; simpa using h
  | cons j t ih =>
    intro ps i p h
    simp only [List.foldl_cons]
    apply ih
    by_cases hj : (posLookup ps j).isSome
    · rwa [if_pos hj]
    · rw [if_neg hj]
      exact posLookup_append _ _ _ _ h

/-- Helper: the ghost-position pass never disturbs an existing binding. -/
lemma posLookup_foldl_ghost (l : PosMap) :
    ∀ (ps : PosMap) (i : ℕ) (p : ℝ × ℝ), posLookup ps i = some p →
    posLookup
      (l.foldl (fun q e => if (posLookup q e.1).isSome then q else q ++ [e]) ps) i
      = some p := by
  induction l with
  | nil => intro ps i p h; simpa using h
  | cons e t ih =>
    intro ps i p h
    simp only [List.foldl_cons]
    apply ih
    by_cases he : (posLookup ps e.1).isSome
    · rwa [if_pos he]
    · rw [if_neg he]
      exact posLookup_append _ _ _ _ h

/-- Helper: the full position map of one render call keeps every binding
the state already had. -/
lemma buildPositions_preserves (nodes : List GNode) (pl : Bool)
    (st : LastFrameState) (i : ℕ) (p : ℝ × ℝ) (hb : statePos st i = some p) :
    posLookup (buildPositions nodes pl st) i = some p := by
  unfold statePos at hb
  cases hps : st.positions with
  | none => rw [hps] at hb; cases hb
  | some ps =>
    rw [hps] at hb
    unfold buildPositions preserveGhostPositions assignPositions
    rw [hps]
    have h1 := posLookup_foldl_assign (List.range nodes.length) ps i p hb
    cases pl with
    | false => simpa using h1
    | true => simpa using posLookup_foldl_ghost ps _ i p h1
/-- Helper: one generate_frame call keeps every existing binding, in the
updated state and in the position map used for drawing. -/
lemma pyGenerateFrame_pos_preserved (nodes : List GNode) (conns : List GConn)
    (d : ℚ) (pl : Bool) (text : Option String) (vis : Option (List ℕ))
    (st : LastFrameState) (i : ℕ) (p : ℝ × ℝ) (hb : statePos st i = some p) :
    statePos (pyGenerateFrame nodes conns d pl text vis st).2 i = some p ∧
    ((pyGenerateFrame nodes conns d pl text vis st).1.textOnly = false →
      posLookup (pyGenerateFrame nodes conns d pl text vis st).1.pos i = some p) := by
  by_cases hn : nodes = []
  · constructor
    · simpa [pyGenerateFrame, hn] using hb
    · intro hfalse
      simp [pyGenerateFrame, hn] at hfalse
  · have hbp := buildPositions_preserves nodes pl st i p hb
    constructor
    · simpa [pyGenerateFrame, hn, statePos] using hbp
    · intro _
      simpa [pyGenerateFrame, hn] using hbp

/-- C6: within one video-generation session a LayoutState binding is
append-only: once the module state binds a position for a node index,
every later rendered step of the session draws with the identical binding
and the final state still carries it, never overwritten. -/
theorem layout_state_append_only (pc : Bool) (specs : List FrameSpec) (i0 : ℕ)
    (st : LastFrameState) (idx : ℕ) (p : ℝ × ℝ)
    (hb : statePos st idx = some p) :
    statePos (goFrames pc specs i0 st).2 idx = some p ∧
    ∀ o ∈ (goFrames pc specs i0 st).1, o.textOnly = false →
      posLookup o.pos idx = some p := by
  induction specs generalizing i0 st with
  | nil =>
    constructor
    · simpa [goFrames] using hb
    · intro o ho
      simp [goFrames] at ho
  | cons f t ih =>
    have hstep := pyGenerateFrame_pos_preserved f.nodes f.connections f.duration
      (pc && decide (0 < i0)) f.text f.visible_nodes st idx p hb
    have hrest := ih (i0 + 1) _ hstep.1
    constructor
    · simpa [goFrames] using hrest.1
    · intro o ho hto
      simp only [goFrames, List.mem_cons] at ho
      rcases ho with rfl | ho2
      · exact hstep.2 hto
      · exact hrest.2 o ho2 hto

/-- Witness for C6: a state binding node 5 keeps that binding across a
rendered one-node frame, which also draws with it. -/
theorem layout_state_append_only_witness :
    statePos (goFrames false [oneNodeSpec] 1 boundState).2 5
        = some (getPredefinedPosition 0) ∧
    ∀ o ∈ (goFrames false [oneNodeSpec] 1 boundState).1, o.textOnly = false →
      posLookup o.pos 5 = some (getPredefinedPosition 0) :=
  layout_state_append_only false [oneNodeSpec] 1 boundState 5
    (getPredefinedPosition 0) rfl

/-- C7: with session continuity enabled, after story frame A with nodes
0, 1, 2 is fully revealed, the first rendered step of story frame B (whose
first connection involves nodes 0 and 3) marks nodes 1 and 2 as ghosts,
does not mark node 0 as a ghost, and draws each ghost with the node record
of the previous frame held in the module state (A's records, which differ
from B's records at those indices), not the current frame's node list. -/
theorem ghosting_first_step_of_B :
    (traceAB.get? 5).map RenderOutput.drawnGhosts
        = some [(1, ("box", "black", "A1")), (2, ("box", "black", "A2"))] ∧
    (generateFramesRun ((storyFrameSpecs storyAB 1).take 5) true resetFrameState).2.nodes
        = some nodesA ∧
    nodesA.get? 1 = some ("box", "black", "A1") ∧
    nodesA.get? 2 = some ("box", "black", "A2") ∧
    nodesB.get? 1 = some ("box", "black", "B1") ∧
    nodesB.get? 2 = some ("box", "black", "B2") ∧
    (("box", "black", "A1") : GNode) ≠ ("box", "black", "B1") ∧
    (("box", "black", "A2") : GNode) ≠ ("box", "black", "B2") ∧
    (traceAB.get? 5).map RenderOutput.drawnNodes = some [0] := by
  refine ⟨rfl, rfl, rfl, rfl, rfl, rfl, by decide, by decide, rfl⟩

/-- C8 counterexample: the claim says the continuity state is overwritten
after every rendered step, including caption-only steps with an empty node
list.  Rendering a caption-only step from a state holding the records of a
previously rendered one-node frame leaves the stored node records as they
were instead of setting them to the step's empty node list. -/
theorem continuity_caption_step_unchanged :
    (pyGenerateFrame [] [] 1 true (some "cap") (some []) captionState).2.nodes
        = some [("box", "black", "X")] ∧
    some [("box", "black", "X")] ≠ some ([] : List GNode) := by
  refine ⟨rfl, by simp⟩

/-- C8 amended: after every rendered step with a non-empty node list the
continuity state is overwritten — the stored node records become the
step's full node list, the stored graph becomes the step's rendered graph
node set, and the stored positions become the step's position map — while
a caption-only step with an empty node list leaves the state unchanged. -/
theorem continuity_overwrite_amended (nodes : List GNode) (conns : List GConn)
    (d : ℚ) (pl : Bool) (text : Option String) (vis : Option (List ℕ))
    (st : LastFrameState) :
    (nodes ≠ [] →
      (pyGenerateFrame nodes conns d pl text vis st).2 =
        ⟨some (buildPositions nodes pl st), some nodes,
         some (buildGraph nodes conns (vis.getD (List.range nodes.length))).1,
         st.next_position_index⟩) ∧
    (nodes = [] → (pyGenerateFrame nodes conns d pl text vis st).2 = st) := by
  constructor
  · intro h
    simp [pyGenerateFrame, h]
  · intro h
    simp [pyGenerateFrame, h]

/-- Witness for C8 amended: a one-node render overwrites the reset state
as described, and a caption-only render leaves the caption state intact. -/
theorem continuity_overwrite_amended_witness :
    (pyGenerateFrame [("box", "black", "X")] [] 1 false none none resetFrameState).2 =
      ⟨some (buildPositions [("box", "black", "X")] false resetFrameState),
       some [("box", "black", "X")],
       some (buildGraph [("box", "black", "X")] [] (List.range 1)).1,
       0⟩ ∧
    (pyGenerateFrame [] [] 1 true (some "cap") (some []) captionState).2
        = captionState :=
  ⟨(continuity_overwrite_amended [("box", "black", "X")] [] 1 false none none
      resetFrameState).1 (by simp),
   (continuity_overwrite_amended [] [] 1 true (some "cap") (some [])
      captionState).2 rfl⟩

/-- Helper: graph node membership is preserved by add_node. -/
lemma mem_addNode {g : List ℕ} {n : ℕ} (m : ℕ) (h : n ∈ g) : n ∈ addNode g m := by
  unfold addNode
  split
  · exact h
  · exact List.mem_append_left _ h

/-- Helper: graph node membership is preserved by add_edge. -/
lemma mem_addEdge {g : List ℕ × List (ℕ × ℕ)} {n : ℕ} (s t : ℕ) (h : n ∈ g.1) :
    n ∈ (addEdge g s t).1 :=
  mem_addNode t (mem_addNode s h)

/-- Helper: graph node membership is preserved by the edge fold of one
connection's sources. -/
lemma mem_srcFold (srcs : List ℕ) (t : ℕ) :
    ∀ (g : List ℕ × List (ℕ × ℕ)) (n : ℕ), n ∈ g.1 →
      n ∈ (srcs.foldl (fun g s => addEdge g s t) g).1 := by
  induction srcs with
  | nil => intro g n h; exact h
  | cons s rest ih =>
    intro g n h
    simp only [List.foldl_cons]
    exact ih _ n (mem_addEdge s t h)

/-- Helper: graph node membership is preserved by the connection fold. -/
lemma mem_connFold (conns : List GConn) :
    ∀ (g : List ℕ × List (ℕ × ℕ)) (n : ℕ), n ∈ g.1 →
      n ∈ (conns.foldl (fun g c => c.1.foldl (fun g s => addEdge g s c.2) g) g).1 := by
  induction conns with
  | nil => intro g n h; exact h
  | cons c rest ih =>
    intro g n h
    simp only [List.foldl_cons]
    exact ih _ n (mem_srcFold c.1 c.2 g n h)

/-- Helper: every visible in-range index is a node of the built graph. -/
lemma mem_buildGraph (nodes : List GNode) (conns : List GConn) (visible : List ℕ)
    (i : ℕ) (hi : i < nodes.length) (hv : i ∈ visible) :
    i ∈ (buildGraph nodes conns visible).1 := by
  unfold buildGraph
  apply mem_connFold
  simp [List.mem_filter, List.mem_range, hi, hv]

/-- C10: a render call with a non-empty node list and no visible-node set
treats every node of the frame as visible, identically to passing the full
index range, and draws every node of the frame at full opacity. -/
theorem default_visible_is_full_range (nodes : List GNode) (conns : List GConn)
    (d : ℚ) (pl : Bool) (text : Option String) (st : LastFrameState)
    (h : nodes ≠ []) :
    pyGenerateFrame nodes conns d pl text none st
      = pyGenerateFrame nodes conns d pl text (some (List.range nodes.length)) st ∧
    ∀ i < nodes.length,
      i ∈ (pyGenerateFrame nodes conns d pl text none st).1.drawnNodes := by
  constructor
  · rfl
  · intro i hi
    have hg := mem_buildGraph nodes conns (List.range nodes.length) i hi
      (List.mem_range.2 hi)
    simp [pyGenerateFrame, h, List.mem_filter, List.mem_range, hi, hg]

/-- Witness for C10: a concrete one-node render with unspecified
visibility equals the full-range render and draws its node. -/
theorem default_visible_is_full_range_witness :
    pyGenerateFrame [("box", "black", "X")] [] 1 false none none resetFrameState
      = pyGenerateFrame [("box", "black", "X")] [] 1 false none
          (some (List.range 1)) resetFrameState ∧
    0 ∈ (pyGenerateFrame [("box", "black", "X")] [] 1 false none none
          resetFrameState).1.drawnNodes := by
  have h := default_visible_is_full_range [("box", "black", "X")] [] 1 false none
    resetFrameState (by simp)
  exact ⟨h.1, h.2 0 (by simp)⟩

end StoryTeller
